import Mathlib

/-!
Shallow embedding of `pdf-to-json.py` (personal-recipe-manager), a Mealime
PDF-to-JSON recipe converter.  Strings are modelled as `List Char`; Python's
`str` methods (`strip`, `split`, `lower`, `startswith`, `in`) and the regular
expressions used by the script are embedded as executable Lean functions.
Character classes (`\w`, `\s`, `str.lower`) are modelled over ASCII, matching
the Python semantics on ASCII input (the script's PDFs are ASCII text).
-/

set_option maxHeartbeats 2000000
set_option maxRecDepth 8000

namespace RecipeManager

/-- Python `\s` (ASCII range): space, tab, newline, carriage return,
vertical tab, form feed. -/
def pyIsSpace (c : Char) : Bool :=
  c == ' ' || c == '\t' || c == '\n' || c == '\r' || c == '\x0b' || c == '\x0c'

/-- Python `\w` (ASCII range): alphanumeric or underscore. -/
def isWordChar (c : Char) : Bool :=
  c.isAlphanum || c == '_'

/-- Remove the longest suffix of characters satisfying `p`
(the right half of Python's `str.strip`). -/
def dropTrailing (p : Char → Bool) : List Char → List Char
  | [] => []
  | c :: rest =>
    match dropTrailing p rest with
    | [] => if p c then [] else [c]
    | r => c :: r

/-- Python `str.strip` with an arbitrary character class: remove the
longest matching prefix and suffix. -/
def stripWhile (p : Char → Bool) (s : List Char) : List Char :=
  dropTrailing p (s.dropWhile p)

/-- Python `str.strip()` (whitespace on both ends). -/
def pyStrip (s : List Char) : List Char :=
  stripWhile pyIsSpace s

/-- Python `str.split(sep)` for a single-character separator.
`"".split(sep) = [""]`, consistent with Python. -/
def splitOnChar (sep : Char) : List Char → List (List Char)
  | [] => [[]]
  | c :: rest =>
    let r := splitOnChar sep rest
    if c == sep then [] :: r
    else
      match r with
      | [] => [[c]]
      | h :: t => (c :: h) :: t

/-- Python `text.split('\n')`. -/
def splitLines (s : List Char) : List (List Char) :=
  splitOnChar '\n' s

/-- Python `' '.join(xs)`. -/
def joinSpace : List (List Char) → List Char
  | [] => []
  | [x] => x
  | x :: xs => x ++ ' ' :: joinSpace xs

/-- Python `int` on a string of decimal digits. -/
def digitsToNat (ds : List Char) : Nat :=
  ds.foldl (fun a c => 10 * a + (c.toNat - 48)) 0

/-- Characters replaced by the `[-\s]+` run-collapsing substitution in
`generate_recipe_id`: whitespace or hyphen. -/
def isRunChar (c : Char) : Bool :=
  pyIsSpace c || c == '-'

/-- Worker for `re.sub(r'[-\s]+', '-', s)`: every maximal run of
whitespace/hyphen characters is replaced by a single `'-'`.  The flag
records whether we are currently inside such a run. -/
def collapseAux : Bool → List Char → List Char
  | _, [] => []
  | inRun, c :: rest =>
    if isRunChar c then
      if inRun then collapseAux true rest
      else '-' :: collapseAux true rest
    else c :: collapseAux false rest

/-- Embedding of `re.sub(r'[-\s]+', '-', s)`. -/
def collapseRuns (s : List Char) : List Char :=
  collapseAux false s

/-- Embedding of `generate_recipe_id` (src/pdf-to-json.py lines 37-42):
lowercase, delete characters outside `[\w\s-]`, collapse whitespace/hyphen
runs to single hyphens, strip leading/trailing hyphens. -/
def generate_recipe_id (title : List Char) : List Char :=
  let lowered := title.map Char.toLower
  let kept := lowered.filter (fun c => isWordChar c || pyIsSpace c || c == '-')
  stripWhile (fun c => c == '-') (collapseRuns kept)

/-- Character set asserted by the claim for `generate_recipe_id` output:
lowercase letters, digits, hyphen. -/
def claimIdChar (c : Char) : Bool :=
  c.isLower || c.isDigit || c == '-'

/-- Character set actually produced by `generate_recipe_id`: lowercase
letters, digits, underscore (a `\w` character, hence preserved), hyphen. -/
def idChar (c : Char) : Bool :=
  c.isLower || c.isDigit || c == '_' || c == '-'

/-- Does the list start with a hyphen? -/
def headIsHyphen (s : List Char) : Bool :=
  s.head? == some '-'

/-- Does the list end with a hyphen? -/
def lastIsHyphen (s : List Char) : Bool :=
  s.getLast? == some '-'

/-- No two adjacent hyphens anywhere in the list. -/
def noDoubleHyphen : List Char → Bool
  | [] => true
  | [_] => true
  | a :: b :: rest => !(a == '-' && b == '-') && noDoubleHyphen (b :: rest)

/-- Python substring containment `kw in s`. -/
def hasSub (kw : List Char) : List Char → Bool
  | [] => kw.isEmpty
  | c :: rest => kw.isPrefixOf (c :: rest) || hasSub kw rest

/-- Result record of `parse_title_and_metadata`. -/
structure TitleMeta where
  title : List Char
  cookTime : List Char
  servings : Nat
deriving DecidableEq, Repr

/-- Embedding of `re.search(r'(\d+)\s*' + kw, s)` for a keyword `kw`
starting with a non-space, non-digit character (here `"minutes"` or
`"serving"`): scan left to right for a digit run followed (after optional
whitespace) by `kw`; return `group(1)`, the matched digit run, verbatim
(leading zeros included).  Greedy `\d+` with backtracking can only succeed
on the whole run, and `\s*` only on the whole space run, because `kw`
starts with a letter. -/
def searchDigitsBefore (kw : List Char) : List Char → Option (List Char)
  | [] => none
  | c :: rest =>
    if c.isDigit then
      let ds := (c :: rest).takeWhile Char.isDigit
      let after := (c :: rest).dropWhile Char.isDigit
      if kw.isPrefixOf (after.dropWhile pyIsSpace) then some ds
      else searchDigitsBefore kw rest
    else searchDigitsBefore kw rest

/-- Python `int(match.group(1))` applied to the same search: the integer
value of the matched digit run. -/
def searchNumBefore (kw : List Char) (s : List Char) : Option Nat :=
  (searchDigitsBefore kw s).map digitsToNat

/-- The per-pair qualification test of the `parse_title_and_metadata` loop
(src lines 54-62): the stripped candidate line is longer than 20
characters, does not start with `"Find cookware"`, and the stripped next
line contains both `"minutes"` and `"servings"`. -/
def qualPair (l nl : List Char) : Bool :=
  decide ((pyStrip l).length > 20) &&
    !(("Find cookware".data).isPrefixOf (pyStrip l)) &&
    hasSub ("minutes".data) (pyStrip nl) &&
    hasSub ("servings".data) (pyStrip nl)

/-- Qualification of line `i` of the line list (needs a following line). -/
def qualAt (ls : List (List Char)) (i : Nat) : Bool :=
  match ls.get? i, ls.get? (i + 1) with
  | some l, some nl => qualPair l nl
  | _, _ => false

/-- The scanning loop of `parse_title_and_metadata` (src lines 54-71):
return the stripped first qualifying line together with its stripped
successor.  The loop body tests the length/prefix conditions first and the
next-line conditions second, continuing the scan whenever any of them
fails and when the candidate is the last line; that is exactly a scan for
the first adjacent pair satisfying `qualPair`. -/
def findMeta : List (List Char) → Option (List Char × List Char)
  | [] => none
  | [_] => none
  | l :: nl :: rest =>
    if qualPair l nl then some (pyStrip l, pyStrip nl)
    else findMeta (nl :: rest)

/-- Rendering of the f-string `f"{time_match.group(1)} minutes"` and the
`or`-default of src lines 67-68 and 75, applied to the stripped line
following the title: the matched digit string is spliced verbatim, so
leading zeros are preserved (`"05 minutes, ..."` yields `"05 minutes"`). -/
def cookTimeOf (nl : List Char) : List Char :=
  match searchDigitsBefore ("minutes".data) nl with
  | some ds => ds ++ ' ' :: "minutes".data
  | none => "30 minutes".data

/-- Servings extraction of src lines 66-77: the regex uses `serving` with
an optional trailing `s`; `servings or 2` maps both `None` and `0` to 2. -/
def servingsOf (nl : List Char) : Nat :=
  match searchNumBefore ("serving".data) nl with
  | some n => if n = 0 then 2 else n
  | none => 2

/-- Embedding of `parse_title_and_metadata` (src lines 45-77). -/
def parse_title_and_metadata (text : List Char) : TitleMeta :=
  match findMeta (splitLines text) with
  | some (line, next) => ⟨line, cookTimeOf next, servingsOf next⟩
  | none => ⟨"Unknown Recipe".data, "30 minutes".data, 2⟩

/-- Lazy capture `(.*?)` followed by a stop pattern: take characters until
the first position where `stop` holds; fail if no position qualifies. -/
def lazyUntil (stop : List Char → Bool) : List Char → Option (List Char)
  | [] => if stop [] then some [] else none
  | c :: rest =>
    if stop (c :: rest) then some []
    else (lazyUntil stop rest).map (fun u => c :: u)

/-- Embedding of `re.search(startMark + '(.*?)' + stopPattern, text,
re.DOTALL)`: try each occurrence of the (non-empty) literal start marker
left to right; at the first one where the lazy capture can be closed by
the stop pattern, return the capture. -/
def searchCapture (startMark : List Char) (stop : List Char → Bool) :
    List Char → Option (List Char)
  | [] => none
  | c :: rest =>
    if startMark.isPrefixOf (c :: rest) then
      match lazyUntil stop ((c :: rest).drop startMark.length) with
      | some u => some u
      | none => searchCapture startMark stop rest
    else searchCapture startMark stop rest

/-- Stop pattern `\nGrab ingredients` of the cookware regex
(src line 85). -/
def stopCookware (s : List Char) : Bool :=
  ("\nGrab ingredients".data).isPrefixOf s

/-- Stop pattern `\n(?:Cook & enjoy|$)` of the ingredients regex
(src line 108): a newline followed by the anchor phrase, the end of the
text, or a single final newline (Python `$` without `re.MULTILINE` also
matches just before a trailing newline). -/
def stopIngredients (s : List Char) : Bool :=
  match s with
  | '\n' :: rest =>
    ("Cook & enjoy".data).isPrefixOf rest || rest.isEmpty || rest == ['\n']
  | _ => false

/-- The page-footer pattern `\n\d+\sof\s\d+` of the instructions regex
(src line 184), matched as a prefix: newline, one or more digits, one
whitespace character, `of`, one whitespace character, one or more digits. -/
def footerAt (s : List Char) : Bool :=
  match s with
  | '\n' :: rest =>
    let r1 := rest.dropWhile Char.isDigit
    !(rest.takeWhile Char.isDigit).isEmpty &&
      (match r1 with
       | w1 :: 'o' :: 'f' :: w2 :: r2 =>
         pyIsSpace w1 && pyIsSpace w2 && !(r2.takeWhile Char.isDigit).isEmpty
       | _ => false)
  | _ => false

/-- Stop pattern `(?:\n\d+\sof\s\d+|$)` of the instructions regex. -/
def stopInstructions (s : List Char) : Bool :=
  footerAt s || s.isEmpty || s == ['\n']

/-- Embedding of `re.sub(r'\s*\(optional\)', '', item)` (src line 97):
each whitespace run immediately followed by the literal `(optional)` is
deleted together with the literal.  The whitespace run must be maximal for
the literal to follow, so no backtracking cases arise. -/
def subOptional : List Char → List Char
  | [] => []
  | c :: rest =>
    let t := (c :: rest).dropWhile pyIsSpace
    if ("(optional)".data).isPrefixOf t then subOptional (t.drop 10)
    else c :: subOptional rest
termination_by s => s.length
decreasing_by
  · have h1 : ((c :: rest).dropWhile pyIsSpace).length ≤ (c :: rest).length :=
      (List.dropWhile_sublist _).length_le
    have h2 : (((c :: rest).dropWhile pyIsSpace).drop 10).length ≤
        ((c :: rest).dropWhile pyIsSpace).length - 10 := by
      simp [List.length_drop]
    have h3 : 10 ≤ ((c :: rest).dropWhile pyIsSpace).length := by
      have := List.IsPrefix.length_le (List.isPrefixOf_iff_prefix.mp (by assumption))
      simpa using this
    simp only [List.length_cons] at *
    omega
  · simp [Nat.lt_succ_self]

/-- Embedding of `parse_cookware` (src lines 80-100). -/
def parse_cookware (text : List Char) : List (List Char) :=
  match searchCapture ("Find cookware\n".data) stopCookware text with
  | none => []
  | some sec =>
    (splitLines sec).filterMap (fun item =>
      let it := pyStrip item
      if !it.isEmpty && !(("Find".data).isPrefixOf it) &&
          decide (it.length > 2) then
        some (subOptional it)
      else none)

/-- Keyword lists of `categorize_ingredient` (src lines 149-176). -/
def produceWords : List (List Char) :=
  ["carrot", "celery", "onion", "garlic", "tomato", "pepper", "kale",
   "lettuce", "spinach", "bean", "apple", "kiwi", "berry", "fruit",
   "lime", "lemon"].map String.data

/-- Protein keyword list. -/
def proteinWords : List (List Char) :=
  ["chicken", "beef", "pork", "fish", "turkey", "salmon", "tuna",
   "shrimp", "tofu"].map String.data

/-- Dairy keyword list. -/
def dairyWords : List (List Char) :=
  ["milk", "cheese", "yogurt", "butter", "cream", "cheddar",
   "mozzarella", "parmesan"].map String.data

/-- Spice keyword list. -/
def spiceWords : List (List Char) :=
  ["salt", "pepper", "cumin", "paprika", "oregano", "basil", "thyme",
   "cinnamon", "turmeric", "chili powder", "italian seasoning"].map
    String.data

/-- Python `any(word in s for word in ws)`. -/
def hasAnyWord (ws : List (List Char)) (s : List Char) : Bool :=
  ws.any (fun w => hasSub w s)

/-- Embedding of `categorize_ingredient` (src lines 149-176): lowercase
then test the five keyword lists in priority order, defaulting to
`pantry`. -/
def categorize_ingredient (ingredient : List Char) : List Char :=
  let low := ingredient.map Char.toLower
  if hasAnyWord produceWords low then "produce".data
  else if hasAnyWord proteinWords low then "protein".data
  else if hasAnyWord dairyWords low then "dairy".data
  else if hasAnyWord spiceWords low then "spices".data
  else "pantry".data

/-- Character class `[\d\/\.\s]` of the quantity regex (src line 129). -/
def isQtyChar (c : Char) : Bool :=
  c.isDigit || c == '/' || c == '.' || pyIsSpace c

/-- Unit alternation of the quantity regex, in source order.  No listed
unit is a prefix of another, so at most one can match at a position. -/
def unitWords : List (List Char) :=
  ["cup", "tbsp", "tsp", "oz", "lb", "fl oz", "pkg", "can", "bunch",
   "stick", "clove", "medium", "small", "large"].map String.data

/-- Backtracking helper: try the continuation after dropping `n`, then
`n - 1`, ..., then `1` characters (greedy semantics of `+`). -/
def tryDrops (k : List Char → Option α) (s : List Char) : Nat → Option α
  | 0 => none
  | n + 1 => (k (s.drop (n + 1))).orElse (fun _ => tryDrops k s n)

/-- Greedy `p+` on a character class: consume one or more class
characters, longest first, backtracking into the continuation. -/
def plusCls (p : Char → Bool) (s : List Char) (k : List Char → Option α) :
    Option α :=
  tryDrops k s (s.takeWhile p).length

/-- Greedy `p*` on a character class: like `plusCls` but also try
consuming nothing. -/
def starCls (p : Char → Bool) (s : List Char) (k : List Char → Option α) :
    Option α :=
  (tryDrops k s (s.takeWhile p).length).orElse (fun _ => k s)

/-- The parenthetical `\([^)]+\)`: an opening parenthesis, one or more
non-`)` characters, a closing parenthesis.  The greedy inner class forces
the match to end at the first `)`. -/
def parenMatch (s : List Char) : Option (List Char) :=
  match s with
  | '(' :: rest =>
    let inner := rest.takeWhile (fun c => !(c == ')'))
    match rest.dropWhile (fun c => !(c == ')')) with
    | ')' :: r => if inner.isEmpty then none else some r
    | _ => none
  | _ => none

/-- Optional group `(...)?`: prefer the match, fall back to skipping. -/
def optPart (m : List Char → Option (List Char)) (s : List Char)
    (k : List Char → Option α) : Option α :=
  (match m s with
   | some r => k r
   | none => none).orElse (fun _ => k s)

/-- The first unit word matching as a prefix, with the rest of the
input. -/
def unitMatch (s : List Char) : Option (List Char) :=
  unitWords.findSome? (fun w =>
    if w.isPrefixOf s then some (s.drop w.length) else none)

/-- Optional literal character `c?`. -/
def optChar (c : Char) (s : List Char) (k : List Char → Option α) :
    Option α :=
  match s with
  | x :: rest => if x == c then (k rest).orElse (fun _ => k s) else k s
  | [] => k s

/-- Trailing `(.+)$` of the quantity regex: `.` does not match a newline
and `$` (no `re.MULTILINE`) matches at the end or just before one final
newline. -/
def dotPlusEnd (s : List Char) : Option (List Char) :=
  if !(s.contains '\n') then
    if s.isEmpty then none else some s
  else if s.getLast? == some '\n' && !(s.dropLast.contains '\n') &&
      !s.dropLast.isEmpty then
    some s.dropLast
  else none

/-- Embedding of
`re.match(r'^([\d\/\.\s]+(?:\([^)]+\))?\s*(?:cup|tbsp|tsp|oz|lb|fl oz|pkg|can|bunch|stick|clove|medium|small|large)?s?)\s+(.+)$', line)`
(src line 129), returning `(group 1, group 2)` when the pattern matches. -/
def quantityMatch (line : List Char) : Option (List Char × List Char) :=
  plusCls isQtyChar line (fun s2 =>
    optPart parenMatch s2 (fun s3 =>
      starCls pyIsSpace s3 (fun s4 =>
        optPart unitMatch s4 (fun s5 =>
          optChar 's' s5 (fun s6 =>
            plusCls pyIsSpace s6 (fun s7 =>
              (dotPlusEnd s7).map (fun nm =>
                (line.take (line.length - s6.length), nm))))))))

/-- An element of the ingredients list (src lines 139-144). -/
structure Ingredient where
  name : List Char
  quantity : List Char
  category : List Char
  original : List Char
deriving DecidableEq, Repr

/-- The loop body of `parse_ingredients` (src lines 117-144) for one raw
line of the section: skip blank lines, `Grab` headers and lines shorter
than 3 characters; otherwise split quantity and name via the quantity
regex and build the ingredient record. -/
def parseIngredientLine (raw : List Char) : Option Ingredient :=
  let line := pyStrip raw
  if line.isEmpty || ("Grab".data).isPrefixOf line ||
      decide (line.length < 3) then none
  else
    let category := categorize_ingredient line
    match quantityMatch line with
    | some (g1, g2) =>
      some ⟨(pyStrip g2).map Char.toLower, pyStrip g1, category, line⟩
    | none => some ⟨line.map Char.toLower, [], category, line⟩

/-- Embedding of `parse_ingredients` (src lines 103-146). -/
def parse_ingredients (text : List Char) : List Ingredient :=
  match searchCapture ("Grab ingredients\n".data) stopIngredients text with
  | none => []
  | some sec => (splitLines sec).filterMap parseIngredientLine

/-- An element of the instructions list (src lines 209-212). -/
structure Step where
  step : Nat
  text : List Char
deriving DecidableEq, Repr

/-- Embedding of `re.match(r'^(\d+)\s*$', line)` (src line 204). -/
def stepNum (l : List Char) : Option Nat :=
  let ds := l.takeWhile Char.isDigit
  if !ds.isEmpty && (l.dropWhile Char.isDigit).all pyIsSpace then
    some (digitsToNat ds)
  else none

/-- Flush of the accumulated step text (src lines 208-212 and 223-227):
a step with no accumulated lines produces nothing. -/
def flushStep (cur : Option Nat) (acc : List (List Char)) : List Step :=
  match cur with
  | some n => if acc.isEmpty then [] else [⟨n, pyStrip (joinSpace acc)⟩]
  | none => []

/-- The line-walking loop of `parse_instructions` (src lines 197-227):
a bare step-number line flushes the previous step and starts a new one;
other non-empty lines accumulate while inside a step. -/
def walkInstr (cur : Option Nat) (acc : List (List Char)) :
    List (List Char) → List Step
  | [] => flushStep cur acc
  | l :: rest =>
    let line := pyStrip l
    if line.isEmpty then walkInstr cur acc rest
    else
      match stepNum line with
      | some n => flushStep cur acc ++ walkInstr (some n) [] rest
      | none =>
        match cur with
        | some _ => walkInstr cur (acc ++ [line]) rest
        | none => walkInstr none acc rest

/-- Embedding of `parse_instructions` (src lines 179-229). -/
def parse_instructions (text : List Char) : List Step :=
  match searchCapture ("Cook & enjoy\n".data) stopInstructions text with
  | none => []
  | some sec => walkInstr none [] (splitLines sec)

/-- A recipe record (src lines 253-262). -/
structure Recipe where
  id : List Char
  title : List Char
  cookTime : List Char
  servings : Nat
  cookware : List (List Char)
  ingredients : List Ingredient
  instructions : List Step
  tags : List (List Char)
deriving DecidableEq, Repr

/-- Assembly of a recipe record from extracted text (src lines 242-262).
The empty-ingredients / empty-instructions check of lines 248-251 only
prints a warning; the record is assembled unconditionally. -/
def assembleRecipe (text : List Char) : Recipe :=
  let metadata := parse_title_and_metadata text
  { id := generate_recipe_id metadata.title
    title := metadata.title
    cookTime := metadata.cookTime
    servings := metadata.servings
    cookware := parse_cookware text
    ingredients := parse_ingredients text
    instructions := parse_instructions text
    tags := [] }

/-- Embedding of `parse_recipe_pdf` after text extraction (src lines
232-266): `None` exactly when the extracted text is empty, otherwise the
assembled recipe.  PDF reading itself is abstracted away: the function
takes the extracted text, which `extract_text_from_pdf` makes empty on
any extraction failure. -/
def parseRecipeText (text : List Char) : Option Recipe :=
  if text.isEmpty then none else some (assembleRecipe text)

/-- The per-file loop of `process_directory` (src lines 287-299) over the
extracted texts of the input files, in directory order: returns the
emitted recipes and the failed inputs.  In this pure model the generic
`except` branch of lines 297-299 is unreachable. -/
def processTexts : List (List Char) → List Recipe × List (List Char)
  | [] => ([], [])
  | t :: rest =>
    let r := processTexts rest
    match parseRecipeText t with
    | some recipe => (recipe :: r.1, r.2)
    | none => (r.1, t :: r.2)

/-- The output document written by `process_directory` (src lines
302-309). -/
structure OutputDoc where
  recipes : List Recipe
  total : Nat
  generated : List Char
  source : List Char
deriving DecidableEq, Repr

/-- Construction of the output document from the extracted texts (src
lines 302-309): `total` is `len(recipes)`.  JSON serialisation and
re-parsing are modelled as the identity on this record. -/
def outputDoc (texts : List (List Char)) (source : List Char) : OutputDoc :=
  { recipes := (processTexts texts).1
    total := (processTexts texts).1.length
    generated := "Generated by pdf_to_json.py".data
    source := source }

/-- The missing-field check of `validate_json` for one recipe (src lines
343-353): Python truthiness of `title`, `ingredients`, `instructions` is
emptiness of the corresponding string/list. -/
def recipeMissing (r : Recipe) : List (List Char) :=
  (if r.title.isEmpty then ["title".data] else []) ++
    (if r.ingredients.isEmpty then ["ingredients".data] else []) ++
      (if r.instructions.isEmpty then ["instructions".data] else [])

/-- The missing-field issue list of `validate_json` (src lines 342-353),
modelled as the list of recipes with at least one missing field (the
printed message text and the 10-issue display cap do not affect whether
any issue is reported). -/
def validateIssues (d : OutputDoc) : List Recipe :=
  d.recipes.filter (fun r => !(recipeMissing r).isEmpty)

/-- The statistics block of `validate_json` (src lines 364-373).  The two
averages divide by `len(recipes)` with no zero guard; a zero recipe count
raises `ZeroDivisionError` in Python, modelled as `none`. -/
def validateStats (d : OutputDoc) : Option (Nat × Nat × Nat × ℚ × ℚ) :=
  let totalIngredients := (d.recipes.map (fun r => r.ingredients.length)).sum
  let totalSteps := (d.recipes.map (fun r => r.instructions.length)).sum
  if d.recipes.length = 0 then none
  else
    some (d.recipes.length, totalIngredients, totalSteps,
      (totalIngredients : ℚ) / (d.recipes.length : ℚ),
      (totalSteps : ℚ) / (d.recipes.length : ℚ))

/-! ### General lemmas about the embedded string primitives -/

/-- ASCII lowering never produces an uppercase letter. -/
theorem toLower_isUpper_false (c : Char) : (Char.toLower c).isUpper = false := by
  unfold Char.toLower
  by_cases h : Char.toNat c ≥ 65 ∧ Char.toNat c ≤ 90
  · rw [if_pos h]
    have hv : (Char.toNat c + 32).isValidChar := Or.inl (by omega)
    rw [Char.ofNat, dif_pos hv]
    simp [Char.isUpper, Char.ofNatAux, UInt32.le_def, BitVec.le_def, Char.toNat] at *
    omega
  · rw [if_neg h]
    simp [Char.isUpper, UInt32.le_def, BitVec.le_def, Char.toNat, UInt32.toNat] at *
    omega

/-- ASCII lowering fixes characters that are not uppercase letters. -/
theorem toLower_eq_self (c : Char) (h : c.isUpper = false) : Char.toLower c = c := by
  unfold Char.toLower
  rw [if_neg]
  intro hc
  simp [Char.isUpper, UInt32.le_def, BitVec.le_def, Char.toNat, UInt32.toNat] at h hc
  omega

/-- ASCII lowering is idempotent. -/
theorem toLower_idem (c : Char) : Char.toLower (Char.toLower c) = Char.toLower c :=
  toLower_eq_self _ (toLower_isUpper_false c)

/-! ### Lemmas about run collapsing and stripping, for `generate_recipe_id` -/

/-- Every character emitted by the run-collapsing pass is either the
substituted hyphen or a non-run character of the input. -/
theorem mem_collapseAux :
    ∀ (s : List Char) (b : Bool) (c : Char), c ∈ collapseAux b s →
      c = '-' ∨ (c ∈ s ∧ isRunChar c = false) := by
  intro s
  induction s with
  | nil => intro b c h; simp [collapseAux] at h
  | cons a rest ih =>
    intro b c h
    by_cases ha : isRunChar a = true
    · by_cases hb : b = true
      · subst hb
        rw [collapseAux, if_pos ha, if_pos rfl] at h
        rcases ih true c h with h' | ⟨hm, hr⟩
        · exact Or.inl h'
        · exact Or.inr ⟨List.mem_cons_of_mem a hm, hr⟩
      · replace hb : b = false := by revert hb; cases b <;> simp
        subst hb
        rw [collapseAux, if_pos ha, if_neg (by simp)] at h
        rcases List.mem_cons.mp h with h' | h'
        · exact Or.inl h'
        · rcases ih true c h' with h'' | ⟨hm, hr⟩
          · exact Or.inl h''
          · exact Or.inr ⟨List.mem_cons_of_mem a hm, hr⟩
    · replace ha : isRunChar a = false := by revert ha; cases isRunChar a <;> simp
      rw [collapseAux, if_neg (by simp [ha])] at h
      rcases List.mem_cons.mp h with h' | h'
      · exact Or.inr ⟨h' ▸ List.mem_cons_self a rest, h' ▸ ha⟩
      · rcases ih false c h' with h'' | ⟨hm, hr⟩
        · exact Or.inl h''
        · exact Or.inr ⟨List.mem_cons_of_mem a hm, hr⟩

/-- While inside a run, the collapser never emits a hyphen first. -/
theorem collapse_head : ∀ s : List Char, headIsHyphen (collapseAux true s) = false := by
  intro s
  induction s with
  | nil => simp [collapseAux, headIsHyphen]
  | cons a rest ih =>
    by_cases ha : isRunChar a = true
    · rw [collapseAux, if_pos ha, if_pos rfl]; exact ih
    · replace ha : isRunChar a = false := by revert ha; cases isRunChar a <;> simp
      rw [collapseAux, if_neg (by simp [ha])]
      have : (a == '-') = false := by
        have := ha; unfold isRunChar at this
        exact (Bool.or_eq_false_iff.mp this).2
      simp [headIsHyphen, this]

/-- Prepending a non-hyphen preserves hyphen-run freedom. -/
theorem nd_cons_of_ne (c : Char) (l : List Char) (hc : (c == '-') = false)
    (hl : noDoubleHyphen l = true) : noDoubleHyphen (c :: l) = true := by
  cases l with
  | nil => simp [noDoubleHyphen]
  | cons b t => rw [noDoubleHyphen]; simp [hc, hl]

/-- Prepending a hyphen to a list not starting with one preserves
hyphen-run freedom. -/
theorem nd_cons_of_head (l : List Char) (hh : headIsHyphen l = false)
    (hl : noDoubleHyphen l = true) : noDoubleHyphen ('-' :: l) = true := by
  cases l with
  | nil => simp [noDoubleHyphen]
  | cons b t =>
    have hb : (b == '-') = false := by simpa [headIsHyphen] using hh
    rw [noDoubleHyphen]; simp [hb, hl]

/-- The run-collapsing pass never emits two adjacent hyphens. -/
theorem collapse_nd : ∀ (s : List Char) (b : Bool),
    noDoubleHyphen (collapseAux b s) = true := by
  intro s
  induction s with
  | nil => intro b; simp [collapseAux, noDoubleHyphen]
  | cons a rest ih =>
    intro b
    by_cases ha : isRunChar a = true
    · cases b with
      | true => rw [collapseAux, if_pos ha, if_pos rfl]; exact ih true
      | false =>
        rw [collapseAux, if_pos ha, if_neg (by simp)]
        exact nd_cons_of_head _ (collapse_head rest) (ih true)
    · replace ha : isRunChar a = false := by revert ha; cases isRunChar a <;> simp
      rw [collapseAux, if_neg (by simp [ha])]
      have : (a == '-') = false := by
        have := ha; unfold isRunChar at this
        exact (Bool.or_eq_false_iff.mp this).2
      exact nd_cons_of_ne _ _ this (ih false)

/-- `dropTrailing` produces a sublist. -/
theorem dropTrailing_sublist (p : Char → Bool) :
    ∀ l : List Char, List.Sublist (dropTrailing p l) l := by
  intro l
  induction l with
  | nil => simp [dropTrailing]
  | cons c rest ih =>
    rw [dropTrailing]
    cases h : dropTrailing p rest with
    | nil =>
      by_cases hc : p c = true
      · simp [hc]
      · replace hc : p c = false := by revert hc; cases p c <;> simp
        simp only [hc]
        exact (List.nil_sublist rest).cons₂ c
    | cons b t =>
      exact (h ▸ ih).cons₂ c

/-- `dropTrailing` keeps the head of the list when its result is
non-empty. -/
theorem head?_dropTrailing (p : Char → Bool) :
    ∀ l : List Char, dropTrailing p l = [] ∨
      (dropTrailing p l).head? = l.head? := by
  intro l
  induction l with
  | nil => exact Or.inl rfl
  | cons c rest ih =>
    rw [dropTrailing]
    cases h : dropTrailing p rest with
    | nil =>
      by_cases hc : p c = true
      · simp [hc]
      · replace hc : p c = false := by revert hc; cases p c <;> simp
        simp [hc]
    | cons b t => simp

/-- Hyphen-run freedom passes to the tail. -/
theorem nd_tail (a : Char) (l : List Char)
    (h : noDoubleHyphen (a :: l) = true) : noDoubleHyphen l = true := by
  cases l with
  | nil => simp [noDoubleHyphen]
  | cons b t =>
    rw [noDoubleHyphen] at h
    simp only [Bool.and_eq_true] at h
    exact h.2

/-- Hyphen-run freedom is preserved by `dropWhile`. -/
theorem nd_dropWhile (p : Char → Bool) :
    ∀ l : List Char, noDoubleHyphen l = true →
      noDoubleHyphen (l.dropWhile p) = true := by
  intro l
  induction l with
  | nil => intro h; simpa using h
  | cons c rest ih =>
    intro h
    rw [List.dropWhile_cons]
    by_cases hc : p c = true
    · simp only [hc, if_true]
      exact ih (nd_tail _ _ h)
    · replace hc : p c = false := by revert hc; cases p c <;> simp
      simp only [hc]
      simpa using h

/-- Hyphen-run freedom is preserved by `dropTrailing`. -/
theorem nd_dropTrailing (p : Char → Bool) :
    ∀ l : List Char, noDoubleHyphen l = true →
      noDoubleHyphen (dropTrailing p l) = true := by
  intro l
  induction l with
  | nil => intro h; simpa using h
  | cons c rest ih =>
    intro h
    rw [dropTrailing]
    cases hdt : dropTrailing p rest with
    | nil =>
      by_cases hc : p c = true
      · simp [hc, noDoubleHyphen]
      · replace hc : p c = false := by revert hc; cases p c <;> simp
        simp [hc, noDoubleHyphen]
    | cons b t =>
      rcases head?_dropTrailing p rest with h0 | h0
      · rw [h0] at hdt; exact absurd hdt (by simp)
      · rw [hdt] at h0
        cases rest with
        | nil => simp at h0
        | cons b' t' =>
          simp only [List.head?_cons, Option.some.injEq] at h0
          subst h0
          rw [noDoubleHyphen] at h ⊢
          have h1 := h
          simp only [Bool.and_eq_true] at h1
          have h2 : noDoubleHyphen (b :: t) = true := by
            rw [← hdt]; exact ih h1.2
          simp [h1.1, h2]

/-- Heads surviving `dropWhile` do not satisfy the predicate. -/
theorem head?_dropWhile_not (p : Char → Bool) :
    ∀ (l : List Char) (c : Char), (l.dropWhile p).head? = some c →
      p c = false := by
  intro l
  induction l with
  | nil => intro c h; simp at h
  | cons a rest ih =>
    intro c h
    rw [List.dropWhile_cons] at h
    by_cases ha : p a = true
    · simp only [ha, if_true] at h; exact ih c h
    · replace ha : p a = false := by revert ha; cases p a <;> simp
      simp only [ha] at h
      simp only [Bool.false_eq_true, if_false, List.head?_cons,
        Option.some.injEq] at h
      exact h ▸ ha

/-- The last character surviving `dropTrailing` does not satisfy the
predicate. -/
theorem getLast?_dropTrailing (p : Char → Bool) :
    ∀ (l : List Char) (c : Char), (dropTrailing p l).getLast? = some c →
      p c = false := by
  intro l
  induction l with
  | nil => intro c h; simp [dropTrailing] at h
  | cons a rest ih =>
    intro c h
    rw [dropTrailing] at h
    cases hdt : dropTrailing p rest with
    | nil =>
      rw [hdt] at h
      by_cases ha : p a = true
      · simp [ha] at h
      · replace ha : p a = false := by revert ha; cases p a <;> simp
        simp only [ha] at h
        simp only [Bool.false_eq_true, if_false] at h
        have : a = c := by simpa [List.getLast?] using h
        exact this ▸ ha
    | cons b t =>
      rw [hdt] at h
      rw [List.getLast?_cons_cons] at h
      exact ih c (hdt ▸ h)

/-! ### Claim C1 -/

/-- Claim C1, counterexample: the claim asserts that `generate_recipe_id`
output contains only characters from `[a-z0-9-]`, but Python `\w` (kept by
the first substitution) includes the underscore, so the title `"a_b"`
yields `"a_b"`, which contains `'_'`. -/
theorem generate_recipe_id_claim_cex :
    generate_recipe_id ("a_b".data) = "a_b".data ∧
      (generate_recipe_id ("a_b".data)).all claimIdChar = false := by
  constructor
  · decide
  · decide

/-- Claim C1, amended: for every title, `generate_recipe_id` output
contains only lowercase letters, digits, underscores and hyphens (the
underscore is a `\w` character and survives the substitutions), has no
leading or trailing hyphen, and has no run of two or more consecutive
hyphens. -/
theorem generate_recipe_id_spec (t : List Char) :
    (generate_recipe_id t).all idChar = true ∧
      headIsHyphen (generate_recipe_id t) = false ∧
      lastIsHyphen (generate_recipe_id t) = false ∧
      noDoubleHyphen (generate_recipe_id t) = true := by
  unfold generate_recipe_id stripWhile
  set kept := (t.map Char.toLower).filter
    (fun c => isWordChar c || pyIsSpace c || c == '-') with hkept
  set hy : Char → Bool := fun c => c == '-' with hhy
  refine ⟨?_, ?_, ?_, ?_⟩
  · rw [List.all_eq_true]
    intro c hc
    have hc1 : c ∈ collapseRuns kept := by
      have hsub1 := dropTrailing_sublist hy ((collapseRuns kept).dropWhile hy)
      have hsub2 := List.dropWhile_sublist (l := collapseRuns kept) hy
      exact hsub2.subset (hsub1.subset hc)
    rcases mem_collapseAux kept false c hc1 with h | ⟨hm, hr⟩
    · simp [idChar, h]
    · rw [hkept, List.mem_filter] at hm
      obtain ⟨hmem, hpred⟩ := hm
      obtain ⟨a, _, rfl⟩ := List.mem_map.mp hmem
      have hup : (Char.toLower a).isUpper = false := toLower_isUpper_false a
      unfold isRunChar at hr
      rw [Bool.or_eq_false_iff] at hr
      simp only [Bool.or_eq_true, hr.1, hr.2, Bool.false_eq_true, or_false,
        isWordChar, Char.isAlphanum, Char.isAlpha, hup] at hpred
      rcases hpred with ((h | h) | h) | h
      · exact h.elim
      · simp [idChar, h]
      · simp [idChar, h]
      · simp [idChar, h]
  · rcases head?_dropTrailing hy ((collapseRuns kept).dropWhile hy) with h | h
    · simp [headIsHyphen, h]
    · unfold headIsHyphen
      rw [h]
      cases hh : ((collapseRuns kept).dropWhile hy).head? with
      | none => simp
      | some c =>
        have := head?_dropWhile_not hy (collapseRuns kept) c hh
        rw [hhy] at this
        simpa using this
  · unfold lastIsHyphen
    cases hl : (dropTrailing hy ((collapseRuns kept).dropWhile hy)).getLast? with
    | none => simp
    | some c =>
      have := getLast?_dropTrailing hy ((collapseRuns kept).dropWhile hy) c hl
      rw [hhy] at this
      simpa using this
  · exact nd_dropTrailing hy _ (nd_dropWhile hy _ (collapse_nd kept false))

/-! ### Claim C2 -/

/-- Shifting the qualification index past the head of the line list. -/
theorem qualAt_succ (l : List Char) (rest : List (List Char)) (i : Nat) :
    qualAt (l :: rest) (i + 1) = qualAt rest i := by
  simp [qualAt]

/-- Qualification of the head pair. -/
theorem qualAt_zero (l : List Char) (rest : List (List Char)) :
    qualAt (l :: rest) 0 =
      match rest with
      | [] => false
      | nl :: _ => qualPair l nl := by
  cases rest <;> simp [qualAt]

/-- One unfolding of the scanning loop in terms of head qualification. -/
theorem findMeta_cons (l : List Char) (rest : List (List Char)) :
    findMeta (l :: rest) =
      if qualAt (l :: rest) 0 = true then
        some (pyStrip l, pyStrip (rest.headD []))
      else findMeta rest := by
  cases rest with
  | nil => simp [findMeta, qualAt_zero]
  | cons nl t =>
    rw [qualAt_zero]
    by_cases h : qualPair l nl = true
    · rw [findMeta, if_pos h]
      simp [h]
    · replace h : qualPair l nl = false := by
        revert h; cases qualPair l nl <;> simp
      rw [findMeta, if_neg (by simp [h])]
      simp [h]

/-- The scanning loop returns the stripped first qualifying line and its
stripped successor. -/
theorem findMeta_first :
    ∀ (ls : List (List Char)) (i : Nat) (l nl : List Char),
      ls.get? i = some l → ls.get? (i + 1) = some nl →
      qualPair l nl = true → (∀ j, j < i → qualAt ls j = false) →
      findMeta ls = some (pyStrip l, pyStrip nl) := by
  intro ls
  induction ls with
  | nil => intro i l nl hl; simp at hl
  | cons a rest ih =>
    intro i l nl hl hnl hq hfirst
    cases i with
    | zero =>
      simp only [List.get?] at hl
      injection hl with hl
      subst hl
      cases rest with
      | nil => simp at hnl
      | cons b t =>
        simp only [List.get?] at hnl
        injection hnl with hnl
        subst hnl
        rw [findMeta_cons, if_pos (by rw [qualAt_zero]; exact hq)]
        simp
    | succ i' =>
      have h0 : qualAt (a :: rest) 0 = false := hfirst 0 (Nat.succ_pos i')
      rw [findMeta_cons, if_neg (by simp [h0])]
      exact ih i' l nl (by simpa using hl) (by simpa using hnl) hq
        (fun j hj => by
          have := hfirst (j + 1) (Nat.succ_lt_succ hj)
          rwa [qualAt_succ] at this)

/-- When no line qualifies, the scanning loop finds nothing. -/
theorem findMeta_no_qual :
    ∀ ls : List (List Char), (∀ j, qualAt ls j = false) →
      findMeta ls = none := by
  intro ls
  induction ls with
  | nil => intro _; rfl
  | cons a rest ih =>
    intro h
    rw [findMeta_cons, if_neg (by simp [h 0])]
    exact ih (fun j => by have := h (j + 1); rwa [qualAt_succ] at this)

/-- Claim C2, counterexample: with metadata line `"25 minutes, 0
servings"` immediately after a qualifying title line, the integer parsed
before `"servings"` is `0`, yet the returned servings value is the default
`2`, not the parsed integer (Python `servings or 2` treats `0` as
falsy). -/
theorem parse_title_and_metadata_cex :
    searchNumBefore ("serving".data)
        (pyStrip ("25 minutes, 0 servings".data)) = some 0 ∧
      parse_title_and_metadata
          ("Super Lovely Garlic Butter Pasta\n25 minutes, 0 servings".data) =
        ⟨"Super Lovely Garlic Butter Pasta".data, "25 minutes".data, 2⟩ := by
  constructor
  · decide
  · decide

/-- Claim C2, amended: `parse_title_and_metadata` takes as title the
stripped first line whose stripped length exceeds 20 characters, that does
not start with `"Find cookware"`, and whose immediately following line
contains both `"minutes"` and `"servings"` (the conjunction is `qualPair`);
scanning stops at that first qualifying line.  From the following line it
returns cookTime `"<n> minutes"` for the integer `n` parsed before
`"minutes"` (default `"30 minutes"` when the regex finds none) and the
integer parsed before `"serving(s)"` as servings when that integer is
non-zero (`0` and a failed parse both yield the default `2`); these
extraction semantics are `cookTimeOf` and `servingsOf`.  When no line
qualifies it returns title `"Unknown Recipe"`, cookTime `"30 minutes"`,
servings `2`. -/
theorem parse_title_and_metadata_spec (text : List Char) :
    (∀ (i : Nat) (l nl : List Char),
      (splitLines text).get? i = some l →
      (splitLines text).get? (i + 1) = some nl →
      qualPair l nl = true →
      (∀ j, j < i → qualAt (splitLines text) j = false) →
      parse_title_and_metadata text =
        ⟨pyStrip l, cookTimeOf (pyStrip nl), servingsOf (pyStrip nl)⟩) ∧
    ((∀ j, qualAt (splitLines text) j = false) →
      parse_title_and_metadata text =
        ⟨"Unknown Recipe".data, "30 minutes".data, 2⟩) := by
  constructor
  · intro i l nl hl hnl hq hfirst
    unfold parse_title_and_metadata
    rw [findMeta_first (splitLines text) i l nl hl hnl hq hfirst]
  · intro h
    unfold parse_title_and_metadata
    rw [findMeta_no_qual (splitLines text) h]

/-- Claim C2, witness: the spec's own example — a 25+ character title line
followed by `"25 minutes, 4 servings"` yields that line as title, cookTime
`"25 minutes"` and servings `4`. -/
theorem parse_title_and_metadata_spec_witness :
    parse_title_and_metadata
        ("Super Lovely Garlic Butter Pasta\n25 minutes, 4 servings".data) =
      ⟨"Super Lovely Garlic Butter Pasta".data, "25 minutes".data, 4⟩ := by
  have h := (parse_title_and_metadata_spec
      ("Super Lovely Garlic Butter Pasta\n25 minutes, 4 servings".data)).1
    0 ("Super Lovely Garlic Butter Pasta".data)
    ("25 minutes, 4 servings".data)
    (by decide) (by decide) (by decide)
    (fun j hj => absurd hj (Nat.not_lt_zero j))
  exact h.trans (by decide)

/-! ### Claim C3 -/

/-- A head surviving `pyStrip` is not whitespace. -/
theorem pyStrip_head_not_space (s : List Char) (c : Char)
    (h : (pyStrip s).head? = some c) : pyIsSpace c = false := by
  unfold pyStrip stripWhile at h
  rcases head?_dropTrailing pyIsSpace (s.dropWhile pyIsSpace) with h0 | h0
  · rw [h0] at h; simp at h
  · rw [h0] at h
    exact head?_dropWhile_not pyIsSpace s c h

/-- `dropTrailing` keeps any element not satisfying the predicate, hence
is non-empty. -/
theorem dropTrailing_ne_nil_of_mem (p : Char → Bool) :
    ∀ (l : List Char) (c : Char), c ∈ l → p c = false →
      dropTrailing p l ≠ [] := by
  intro l
  induction l with
  | nil => intro c hc; simp at hc
  | cons a rest ih =>
    intro c hc hp
    rw [dropTrailing]
    rcases List.mem_cons.mp hc with h | h
    · cases hdt : dropTrailing p rest with
      | nil => subst h; simp [hp]
      | cons b t => simp
    · have := ih c h hp
      cases hdt : dropTrailing p rest with
      | nil => exact absurd hdt this
      | cons b t => simp

/-- `stripWhile` keeps a list containing some character outside the
stripped class non-empty. -/
theorem stripWhile_ne_nil_of_mem (p : Char → Bool) (l : List Char)
    (c : Char) (hc : c ∈ l) (hp : p c = false) : stripWhile p l ≠ [] := by
  unfold stripWhile
  have hcd : c ∈ l.dropWhile p := by
    have hsplit : c ∈ l.takeWhile p ++ l.dropWhile p := by
      rw [List.takeWhile_append_dropWhile]; exact hc
    rcases List.mem_append.mp hsplit with h | h
    · exact absurd (List.mem_takeWhile_imp h) (by simp [hp])
    · exact h
  exact dropTrailing_ne_nil_of_mem p _ c hcd hp

/-- Membership in a space-join. -/
theorem mem_joinSpace (c : Char) :
    ∀ (xs : List (List Char)) (a : List Char), a ∈ xs → c ∈ a →
      c ∈ joinSpace xs := by
  intro xs
  induction xs with
  | nil => intro a ha; simp at ha
  | cons x rest ih =>
    intro a ha hc
    rcases List.mem_cons.mp ha with h | h
    · subst h
      cases rest with
      | nil => simpa [joinSpace] using hc
      | cons y t =>
        show c ∈ a ++ ' ' :: joinSpace (y :: t)
        exact List.mem_append_left _ hc
    · cases rest with
      | nil => simp at h
      | cons y t =>
        show c ∈ x ++ ' ' :: joinSpace (y :: t)
        exact List.mem_append_right _ (List.mem_cons_of_mem _ (ih a h hc))

/-- Accumulator lines containing a non-space character produce a flushed
step with non-empty text. -/
theorem flushStep_text_ne_nil (cur : Option Nat) (acc : List (List Char))
    (hacc : ∀ a ∈ acc, ∃ c ∈ a, pyIsSpace c = false) :
    ∀ s ∈ flushStep cur acc, s.text ≠ [] := by
  intro s hs
  cases cur with
  | none => simp [flushStep] at hs
  | some n =>
    rw [flushStep] at hs
    by_cases he : acc.isEmpty = true
    · simp [he] at hs
    · replace he : acc.isEmpty = false := by revert he; cases acc.isEmpty <;> simp
      simp only [he, Bool.false_eq_true, if_false, List.mem_singleton] at hs
      subst hs
      show pyStrip (joinSpace acc) ≠ []
      cases acc with
      | nil => simp at he
      | cons a t =>
        obtain ⟨c, hca, hcs⟩ := hacc a (List.mem_cons_self a t)
        exact stripWhile_ne_nil_of_mem pyIsSpace _ c
          (mem_joinSpace c (a :: t) a (List.mem_cons_self a t) hca) hcs

/-- Every step emitted by the instruction walker has non-empty text,
provided the accumulated lines each contain a non-space character (true
initially, since the accumulator starts empty). -/
theorem walkInstr_text_ne_nil :
    ∀ (ls : List (List Char)) (cur : Option Nat) (acc : List (List Char)),
      (∀ a ∈ acc, ∃ c ∈ a, pyIsSpace c = false) →
      ∀ s ∈ walkInstr cur acc ls, s.text ≠ [] := by
  intro ls
  induction ls with
  | nil =>
    intro cur acc hacc s hs
    exact flushStep_text_ne_nil cur acc hacc s hs
  | cons l rest ih =>
    intro cur acc hacc s hs
    rw [walkInstr.eq_def] at hs
    dsimp only at hs
    by_cases he : (pyStrip l).isEmpty = true
    · rw [if_pos he] at hs
      exact ih cur acc hacc s hs
    · replace he : (pyStrip l).isEmpty = false := by
        revert he; cases (pyStrip l).isEmpty <;> simp
      rw [if_neg (by simp [he])] at hs
      have hline : ∃ c ∈ pyStrip l, pyIsSpace c = false := by
        cases hl : pyStrip l with
        | nil => rw [hl] at he; simp at he
        | cons c t =>
          refine ⟨c, List.mem_cons_self c t, ?_⟩
          exact pyStrip_head_not_space l c (by rw [hl]; rfl)
      cases hsn : stepNum (pyStrip l) with
      | some n =>
        rw [hsn] at hs
        rcases List.mem_append.mp hs with h | h
        · exact flushStep_text_ne_nil cur acc hacc s h
        · exact ih (some n) [] (by intro a ha; simp at ha) s h
      | none =>
        rw [hsn] at hs
        cases cur with
        | some m =>
          refine ih (some m) (acc ++ [pyStrip l]) ?_ s hs
          intro a ha
          rcases List.mem_append.mp ha with h | h
          · exact hacc a h
          · rw [List.mem_singleton.mp h]
            exact hline
        | none => exact ih none acc hacc s hs

/-- Claim C3: a bare digit line starts a new step and flushes the previous
step's accumulated non-empty lines space-joined and trimmed, a step that
accumulated no text lines is dropped — witnessed on the claim's example
block, which yields exactly steps 1 and 2 — and in general every emitted
step has non-empty text (the flush of a step with no accumulated lines
emits nothing). -/
theorem parse_instructions_spec :
    walkInstr none []
        (splitLines ("1\nPreheat oven.\n2\nBake for 20 minutes.".data)) =
      [⟨1, "Preheat oven.".data⟩, ⟨2, "Bake for 20 minutes.".data⟩] ∧
    ∀ (text : List Char) (s : Step), s ∈ parse_instructions text →
      s.text ≠ [] := by
  constructor
  · decide
  · intro text s hs
    unfold parse_instructions at hs
    cases hsec : searchCapture ("Cook & enjoy\n".data) stopInstructions text with
    | none => rw [hsec] at hs; simp at hs
    | some sec =>
      rw [hsec] at hs
      exact walkInstr_text_ne_nil (splitLines sec) none []
        (by intro a ha; simp at ha) s hs

/-- Claim C3, witness: on the text `"Cook & enjoy\n1\nStir."` the parser
emits step 1 with the non-empty text `"Stir."`. -/
theorem parse_instructions_spec_witness :
    (⟨1, "Stir.".data⟩ : Step) ∈
        parse_instructions ("Cook & enjoy\n1\nStir.".data) ∧
      (⟨1, "Stir.".data⟩ : Step).text ≠ [] :=
  ⟨by decide, parse_instructions_spec.2 ("Cook & enjoy\n1\nStir.".data)
    ⟨1, "Stir.".data⟩ (by decide)⟩

/-! ### Claim C9 -/

/-- Claim C9: when a qualifying metadata line is found but the integer
parsed before `"serving"` is `0`, the returned servings is the default 2:
Python `servings or 2` treats the parsed `0` as falsy, so `0` is
indistinguishable from a failed match at the public interface. -/
theorem servings_zero_default (text : List Char) (a b : List Char)
    (h : findMeta (splitLines text) = some (a, b))
    (h0 : searchNumBefore ("serving".data) b = some 0) :
    (parse_title_and_metadata text).servings = 2 := by
  unfold parse_title_and_metadata
  rw [h]
  simp [servingsOf, h0]

/-- Claim C9, witness: a concrete text whose metadata line reads
`"25 minutes, 0 servings"` produces servings 2. -/
theorem servings_zero_default_witness :
    (parse_title_and_metadata
        ("Super Tasty Garlic Butter Noodles\n25 minutes, 0 servings".data)).servings
      = 2 :=
  servings_zero_default
    ("Super Tasty Garlic Butter Noodles\n25 minutes, 0 servings".data)
    ("Super Tasty Garlic Butter Noodles".data)
    ("25 minutes, 0 servings".data) (by decide) (by decide)

/-! ### Claim C4 -/

/-- Lowering a list of characters is idempotent. -/
theorem map_toLower_idem (X : List Char) :
    (X.map Char.toLower).map Char.toLower = X.map Char.toLower := by
  rw [List.map_map]
  exact List.map_congr_left (fun a _ => by
    simp only [Function.comp]
    exact toLower_idem a)

/-- Claim C4: the ingredient-line parser splits a line into a quantity
prefix and a name via the quantity regex; `"1 cup flour"` yields quantity
`"1 cup"`, name `"flour"`, category `"pantry"`; `"2 medium carrots"`
yields category `"produce"`; and in general, for every parsed line, the
`original` field is the (stripped) line verbatim, the name is lowercased,
and when the prefix regex fails the quantity is empty and the whole line
becomes the name. -/
theorem parseIngredientLine_spec :
    parseIngredientLine ("1 cup flour".data) =
      some ⟨"flour".data, "1 cup".data, "pantry".data, "1 cup flour".data⟩ ∧
    (parseIngredientLine ("2 medium carrots".data)).map Ingredient.category =
      some ("produce".data) ∧
    ∀ (raw : List Char) (ing : Ingredient),
      parseIngredientLine raw = some ing →
      ing.original = pyStrip raw ∧
      ing.name.map Char.toLower = ing.name ∧
      (quantityMatch (pyStrip raw) = none →
        ing.quantity = [] ∧ ing.name = (pyStrip raw).map Char.toLower) := by
  refine ⟨by decide, by decide, ?_⟩
  intro raw ing h
  unfold parseIngredientLine at h
  by_cases hc : ((pyStrip raw).isEmpty ||
      ("Grab".data).isPrefixOf (pyStrip raw) ||
      decide ((pyStrip raw).length < 3)) = true
  · rw [if_pos hc] at h
    exact absurd h (by simp)
  · rw [if_neg hc] at h
    cases hq : quantityMatch (pyStrip raw) with
    | some g =>
      rw [hq] at h
      obtain ⟨g1, g2⟩ := g
      injection h with h
      subst h
      refine ⟨rfl, map_toLower_idem _, ?_⟩
      intro h0
      exact absurd h0 (by simp [hq])
    | none =>
      rw [hq] at h
      injection h with h
      subst h
      exact ⟨rfl, map_toLower_idem _, fun _ => ⟨rfl, rfl⟩⟩

/-- Claim C4, witness: `"olive oil"` has no quantity prefix, so the whole
line becomes the (already lowercase) name with empty quantity, and the
original line is kept. -/
theorem parseIngredientLine_spec_witness :
    quantityMatch (pyStrip ("olive oil".data)) = none ∧
      (⟨"olive oil".data, [], "pantry".data, "olive oil".data⟩ :
          Ingredient).original = pyStrip ("olive oil".data) ∧
      (⟨"olive oil".data, [], "pantry".data, "olive oil".data⟩ :
          Ingredient).quantity = [] := by
  have h := parseIngredientLine_spec.2.2 ("olive oil".data)
    ⟨"olive oil".data, [], "pantry".data, "olive oil".data⟩ (by decide)
  exact ⟨by decide, h.1, (h.2.2 (by decide)).1⟩

/-! ### Claim C5 -/

/-- Claim C5: `categorize_ingredient` lowercases its input, tests the five
fixed keyword lists in priority order produce, protein, dairy, spices,
pantry-as-default, returns the first matching list's category, and always
returns one of exactly those five values. -/
theorem categorize_ingredient_spec (ing : List Char) :
    (categorize_ingredient ing ∈
      ["produce".data, "protein".data, "dairy".data, "spices".data,
        "pantry".data]) ∧
    (hasAnyWord produceWords (ing.map Char.toLower) = true →
      categorize_ingredient ing = "produce".data) ∧
    (hasAnyWord produceWords (ing.map Char.toLower) = false →
      hasAnyWord proteinWords (ing.map Char.toLower) = true →
      categorize_ingredient ing = "protein".data) ∧
    (hasAnyWord produceWords (ing.map Char.toLower) = false →
      hasAnyWord proteinWords (ing.map Char.toLower) = false →
      hasAnyWord dairyWords (ing.map Char.toLower) = true →
      categorize_ingredient ing = "dairy".data) ∧
    (hasAnyWord produceWords (ing.map Char.toLower) = false →
      hasAnyWord proteinWords (ing.map Char.toLower) = false →
      hasAnyWord dairyWords (ing.map Char.toLower) = false →
      hasAnyWord spiceWords (ing.map Char.toLower) = true →
      categorize_ingredient ing = "spices".data) ∧
    (hasAnyWord produceWords (ing.map Char.toLower) = false →
      hasAnyWord proteinWords (ing.map Char.toLower) = false →
      hasAnyWord dairyWords (ing.map Char.toLower) = false →
      hasAnyWord spiceWords (ing.map Char.toLower) = false →
      categorize_ingredient ing = "pantry".data) := by
  refine ⟨?_, ?_, ?_, ?_, ?_, ?_⟩
  · unfold categorize_ingredient
    simp only []
    split_ifs <;> simp
  · intro h1; simp [categorize_ingredient, h1]
  · intro h1 h2; simp [categorize_ingredient, h1, h2]
  · intro h1 h2 h3; simp [categorize_ingredient, h1, h2, h3]
  · intro h1 h2 h3 h4; simp [categorize_ingredient, h1, h2, h3, h4]
  · intro h1 h2 h3 h4; simp [categorize_ingredient, h1, h2, h3, h4]

/-- Claim C5, witness: `"Black Pepper"` contains `"pepper"`, which is in
both the produce list and the spices list, and is categorized
`"produce"` because produce has priority. -/
theorem categorize_ingredient_spec_witness :
    hasAnyWord produceWords (("Black Pepper".data).map Char.toLower) = true ∧
      hasAnyWord spiceWords (("Black Pepper".data).map Char.toLower) = true ∧
      categorize_ingredient ("Black Pepper".data) = "produce".data :=
  ⟨by decide, by decide,
    (categorize_ingredient_spec ("Black Pepper".data)).2.1 (by decide)⟩

/-! ### Claims C6, C7, C8, C10 -/

/-- The emitted recipes are exactly the assemblies of the non-empty
texts, in order. -/
theorem processTexts_fst :
    ∀ texts : List (List Char),
      (processTexts texts).1 =
        (texts.filter (fun t => !t.isEmpty)).map assembleRecipe := by
  intro texts
  induction texts with
  | nil => rfl
  | cons t rest ih =>
    rw [processTexts]
    unfold parseRecipeText
    by_cases he : t.isEmpty = true
    · simp [he, ih]
    · replace he : t.isEmpty = false := by revert he; cases t.isEmpty <;> simp
      simp [he, ih]

/-- The failed inputs are exactly the empty texts, in order. -/
theorem processTexts_snd :
    ∀ texts : List (List Char),
      (processTexts texts).2 = texts.filter (fun t => t.isEmpty) := by
  intro texts
  induction texts with
  | nil => rfl
  | cons t rest ih =>
    rw [processTexts]
    unfold parseRecipeText
    by_cases he : t.isEmpty = true
    · simp [he, ih]
    · replace he : t.isEmpty = false := by revert he; cases t.isEmpty <;> simp
      simp [he, ih]

/-- Claim C6: every non-empty extracted text yields a recipe that is
included in the emitted list — also when its parsed ingredients or
instructions are empty — and the failure list contains only empty texts,
so such a recipe is never recorded as failed. -/
theorem recipe_emitted_despite_empty_parse (texts : List (List Char))
    (t : List Char) (ht : t ∈ texts) (hne : t.isEmpty = false)
    (_hmiss : parse_ingredients t = [] ∨ parse_instructions t = []) :
    assembleRecipe t ∈ (processTexts texts).1 ∧
      (processTexts texts).2.all List.isEmpty = true := by
  constructor
  · rw [processTexts_fst]
    exact List.mem_map_of_mem _ (List.mem_filter.mpr ⟨ht, by simp [hne]⟩)
  · rw [processTexts_snd, List.all_eq_true]
    intro a ha
    exact (List.mem_filter.mp ha).2

/-- Claim C6, witness: the one-character text `"x"` parses to zero
ingredients and zero instructions yet its recipe is emitted and the
failure list stays clean. -/
theorem recipe_emitted_despite_empty_parse_witness :
    assembleRecipe ("x".data) ∈ (processTexts [("x".data)]).1 ∧
      (processTexts [("x".data)]).2.all List.isEmpty = true :=
  recipe_emitted_despite_empty_parse [("x".data)] ("x".data)
    (List.mem_singleton.mpr rfl) (by decide) (Or.inl (by decide))

/-- Claim C7: for every output document written by the directory
processor in which every recipe has a non-empty title, non-empty
ingredients and non-empty instructions, the validator reports zero
missing-field issues (JSON serialisation and re-parsing are modelled as
the identity on the document). -/
theorem validate_round_trip (texts : List (List Char)) (src : List Char)
    (h : (outputDoc texts src).recipes.all
        (fun r => !(r.title.isEmpty || r.ingredients.isEmpty ||
          r.instructions.isEmpty)) = true) :
    validateIssues (outputDoc texts src) = [] := by
  unfold validateIssues
  rw [List.filter_eq_nil_iff]
  intro r hr
  rw [List.all_eq_true] at h
  have hh := h r hr
  simp only [Bool.not_eq_true', Bool.or_eq_false_iff] at hh
  have h1 : r.title ≠ [] := by simpa using hh.1.1
  have h2 : r.ingredients ≠ [] := by simpa using hh.1.2
  have h3 : r.instructions ≠ [] := by simpa using hh.2
  unfold recipeMissing
  simp [h1, h2, h3]

/-- Claim C7, witness: a document built from a text with non-empty
parsed ingredients and instructions validates with zero issues. -/
theorem validate_round_trip_witness :
    validateIssues (outputDoc
      [("Grab ingredients\n1 cup flour\nCook & enjoy\n1\nStir.".data)]
      ("recipe-pdfs".data)) = [] :=
  validate_round_trip
    [("Grab ingredients\n1 cup flour\nCook & enjoy\n1\nStir.".data)]
    ("recipe-pdfs".data) (by decide)

/-- Claim C8: the validator's average statistics divide by the recipe
count unconditionally — a zero count reaches the division (modelled as
`none`, Python's `ZeroDivisionError`) — and for every document with a
positive recipe count the statistics, including both averages, are
well-defined. -/
theorem validateStats_spec (d : OutputDoc) :
    (d.recipes.length = 0 → validateStats d = none) ∧
      (0 < d.recipes.length → (validateStats d).isSome = true) := by
  constructor
  · intro h
    unfold validateStats
    simp [h]
  · intro h
    unfold validateStats
    have : ¬d.recipes.length = 0 := by omega
    simp [this]

/-- Claim C8, witness: a document with one recipe has well-defined
statistics. -/
theorem validateStats_spec_witness :
    (validateStats (outputDoc [("x".data)] [])).isSome = true :=
  (validateStats_spec (outputDoc [("x".data)] [])).2 (by decide)

/-- Splitting a list by a Boolean predicate preserves total length. -/
theorem length_filter_not_add_length_filter (p : List Char → Bool) :
    ∀ ts : List (List Char),
      (ts.filter (fun t => !p t)).length + (ts.filter (fun t => p t)).length
        = ts.length := by
  intro ts
  induction ts with
  | nil => rfl
  | cons t rest ih =>
    by_cases h : p t = true
    · simp [List.filter_cons, h, ← ih]
      omega
    · replace h : p t = false := by revert h; cases p t <;> simp
      simp [List.filter_cons, h, ← ih]
      omega

/-- Claim C10: in every output document produced by the directory
processor, `total` equals the length of the recipes list, and the emitted
and failed counts add up to the number of input texts, so failed files are
never counted in `total`. -/
theorem outputDoc_total_spec (texts : List (List Char)) (src : List Char) :
    (outputDoc texts src).total = (outputDoc texts src).recipes.length ∧
      (outputDoc texts src).recipes.length + (processTexts texts).2.length
        = texts.length := by
  constructor
  · rfl
  · show (processTexts texts).1.length + (processTexts texts).2.length
      = texts.length
    rw [processTexts_fst, processTexts_snd, List.length_map]
    exact length_filter_not_add_length_filter List.isEmpty texts

end RecipeManager
